import Mathlib

/-!
Verification of the pdblp result-shaping layer (pdblp/pdblp.py, class BCon).

The five data operations (bdh, ref, ref_hist, bdib, custom_req) all follow the
same shape: send a request, then loop over session events, extracting records
from each event's messages, until a terminal event type is seen.  We embed:

* vendor events as a type tag plus a list of messages (Event);
* each method's per-message record extraction as an Except-valued function,
  mirroring the Python code's exceptions (LookupError, RuntimeError, blpapi
  NotFoundException, IndexError, pandas KeyError/ValueError) via PErr;
* the polling loop as a single recursion evLoop over the (finite prefix of
  the) event stream; the value none models a loop that never observes its
  terminal event type and hence never returns;
* the final pandas reshaping (DataFrame-from-dict, pivot, loc, droplevel)
  as explicit list computations producing a Table (row keys, column keys,
  and a cell lookup).

Dict keys of the era's pandas DataFrame constructor are sorted (the code's
own docstring: "otherwise MultiIndex is sorted"), which we model with
mergeSort over the lexicographic order on (ticker, field) pairs.
-/

/-- Event types returned by blpapi Session.nextEvent. -/
inductive EvType
  | RESPONSE
  | PARTIAL
  | TIMEOUT
  | OTHER
deriving DecidableEq

/-- An event: its type tag and the messages it carries. -/
structure Event (M : Type) where
  etype : EvType
  msgs : List M
deriving DecidableEq

/-- Errors raised by the Python code paths: LookupError(msg) in bdh,
RuntimeError("Timeout, increase timeout parameter") in ref_hist, blpapi's
element-not-found exception, Python IndexError on list indexing, and the
pandas KeyError / ValueError raised while reshaping. -/
inductive PErr
  | lookupError (sec : String)
  | runtimeTimeout
  | notFound (name : String)
  | indexError
  | keyError
  | valueError
deriving DecidableEq

deriving instance DecidableEq for Except

/-- Sequence a record extraction over a list, concatenating the results and
propagating the first raised error, as Python's nested for-loops do. -/
def collectE {α R : Type} (f : α → Except PErr (List R)) : List α → Except PErr (List R)
  | [] => .ok []
  | x :: xs =>
    match f x with
    | .error e => .error e
    | .ok a =>
      match collectE f xs with
      | .error e => .error e
      | .ok b => .ok (a ++ b)

/-- Record extraction over a list of events (used to state how much data a
stream prefix contributes). -/
def collectEvs {M R : Type} (extract : List M → Except PErr (List R)) (evs : List (Event M)) :
    Except PErr (List R) :=
  collectE (fun e => extract e.msgs) evs

/-- The common polling loop of BCon's methods: process every message of the
next event (an exception aborts the call), then stop when the terminal event
type fires, applying the method's finishing step to the accumulated records.
A stream exhausted without a terminal event means the Python while-True loop
is still waiting: modelled as none. -/
def evLoop {M R β : Type} (extract : List M → Except PErr (List R)) (isTerm : EvType → Bool)
    (finish : List R → Except PErr β) : List (Event M) → List R → Option (Except PErr β)
  | [], _ => none
  | e :: evs, acc =>
    match extract e.msgs with
    | .error err => some (.error err)
    | .ok recs =>
      if isTerm e.etype then some (finish (acc ++ recs))
      else evLoop extract isTerm finish evs (acc ++ recs)

theorem collectE_nil {α R : Type} (f : α → Except PErr (List R)) : collectE f [] = .ok [] := rfl

theorem collectE_cons_ok {α R : Type} {f : α → Except PErr (List R)} {x : α} {a : List R}
    (hx : f x = .ok a) (xs : List α) :
    collectE f (x :: xs) =
      match collectE f xs with
      | .error e => .error e
      | .ok b => .ok (a ++ b) := by
  simp [collectE, hx]

theorem collectE_cons_error {α R : Type} {f : α → Except PErr (List R)} {x : α} {e : PErr}
    (hx : f x = .error e) (xs : List α) :
    collectE f (x :: xs) = .error e := by
  simp [collectE, hx]

theorem collectE_append_ok {α R : Type} {f : α → Except PErr (List R)} {xs : List α}
    {r1 : List R} (h : collectE f xs = .ok r1) (ys : List α) :
    collectE f (xs ++ ys) = Except.map (fun r2 => r1 ++ r2) (collectE f ys) := by
  induction xs generalizing r1 with
  | nil =>
    simp only [collectE] at h
    cases h
    simp only [List.nil_append]
    cases hys : collectE f ys <;> simp [Except.map, hys]
  | cons x xs ih =>
    simp only [collectE] at h
    cases hx : f x with
    | error e => rw [hx] at h; exact absurd h (by simp)
    | ok a =>
      rw [hx] at h
      cases hxs : collectE f xs with
      | error e => rw [hxs] at h; exact absurd h (by simp)
      | ok b =>
        rw [hxs] at h
        cases h
        rw [List.cons_append, collectE_cons_ok hx, ih hxs]
        cases hys : collectE f ys <;> simp [Except.map, List.append_assoc]

theorem collectE_split {α R : Type} {f : α → Except PErr (List R)} {xs ys : List α}
    {rs : List R} (h : collectE f (xs ++ ys) = .ok rs) :
    ∃ r1 r2, collectE f xs = .ok r1 ∧ collectE f ys = .ok r2 ∧ rs = r1 ++ r2 := by
  induction xs generalizing rs with
  | nil =>
    exact ⟨[], rs, rfl, by simpa using h, by simp⟩
  | cons x xs ih =>
    rw [List.cons_append] at h
    simp only [collectE] at h
    cases hx : f x with
    | error e => rw [hx] at h; exact absurd h (by simp)
    | ok a =>
      rw [hx] at h
      cases hxs : collectE f (xs ++ ys) with
      | error e => rw [hxs] at h; exact absurd h (by simp)
      | ok b =>
        rw [hxs] at h
        cases h
        obtain ⟨r1, r2, h1, h2, h3⟩ := ih hxs
        refine ⟨a ++ r1, r2, ?_, h2, by rw [h3, List.append_assoc]⟩
        rw [collectE_cons_ok hx, h1]

theorem evLoop_cons_ok {M R β : Type} {extract : List M → Except PErr (List R)}
    {isTerm : EvType → Bool} {finish : List R → Except PErr β} {e : Event M} {recs : List R}
    (hx : extract e.msgs = .ok recs) (evs : List (Event M)) (acc : List R) :
    evLoop extract isTerm finish (e :: evs) acc =
      if isTerm e.etype then some (finish (acc ++ recs))
      else evLoop extract isTerm finish evs (acc ++ recs) := by
  simp [evLoop, hx]

theorem evLoop_cons_error {M R β : Type} {extract : List M → Except PErr (List R)}
    {isTerm : EvType → Bool} {finish : List R → Except PErr β} {e : Event M} {err : PErr}
    (hx : extract e.msgs = .error err) (evs : List (Event M)) (acc : List R) :
    evLoop extract isTerm finish (e :: evs) acc = some (.error err) := by
  simp [evLoop, hx]

theorem evLoop_append {M R β : Type} {extract : List M → Except PErr (List R)}
    {isTerm : EvType → Bool} {finish : List R → Except PErr β} {evs1 : List (Event M)}
    {rs : List R} (hpre : ∀ e ∈ evs1, isTerm e.etype = false)
    (hx : collectEvs extract evs1 = .ok rs) (evs2 : List (Event M)) (acc : List R) :
    evLoop extract isTerm finish (evs1 ++ evs2) acc =
      evLoop extract isTerm finish evs2 (acc ++ rs) := by
  induction evs1 generalizing rs acc with
  | nil =>
    simp only [collectEvs, collectE] at hx
    cases hx
    simp
  | cons e evs ih =>
    simp only [collectEvs, collectE] at hx
    cases hev : extract e.msgs with
    | error err => rw [hev] at hx; exact absurd hx (by simp)
    | ok a =>
      rw [hev] at hx
      cases hrest : collectE (fun e => extract e.msgs) evs with
      | error err => rw [hrest] at hx; exact absurd hx (by simp)
      | ok b =>
        rw [hrest] at hx
        cases hx
        rw [List.cons_append, evLoop_cons_ok hev, hpre e (by simp), if_neg (by simp)]
        rw [ih (fun x hx => hpre x (by simp [hx])) hrest]
        rw [List.append_assoc]

theorem evLoop_none {M R β : Type} {extract : List M → Except PErr (List R)}
    {isTerm : EvType → Bool} {finish : List R → Except PErr β} {evs : List (Event M)}
    {rs : List R} (hpre : ∀ e ∈ evs, isTerm e.etype = false)
    (hx : collectEvs extract evs = .ok rs) (acc : List R) :
    evLoop extract isTerm finish evs acc = none := by
  rw [← List.append_nil evs, evLoop_append hpre hx [] acc]
  rfl

/-! Reference data (BCon.ref, pdblp.py lines 164-245).

A reference field value is either a scalar or an array; for an array the
code walks every array entry and appends every sub-element value of the
entry into one flat Python list. -/

/-- A reference field value as delivered by the vendor: a scalar, or an
array whose entries each carry a list of sub-element values. -/
inductive RFld
  | scalar (v : Int)
  | array (entries : List (List Int))
deriving DecidableEq

/-- A value stored in the accumulated (field, ticker, value) triples of
BCon.ref: a scalar, or the flat list built from an array field. -/
inductive OutVal
  | s (v : Int)
  | l (vs : List Int)
deriving DecidableEq

/-- The two nested for-loops of pdblp.py lines 222-231: val starts as the
empty list and every sub-element value of every array entry is appended. -/
def flattenLoop (entries : List (List Int)) : List Int :=
  entries.foldl (fun val elms => elms.foldl (fun v e => v ++ [e]) val) []

/-- Value extracted by BCon.ref for one field element: the isArray branch
flattens, otherwise getValue returns the scalar (pdblp.py lines 221-233). -/
def refFieldVal : RFld → OutVal
  | .scalar v => .s v
  | .array entries => .l (flattenLoop entries)

theorem foldl_append_singleton (val : List Int) (elms : List Int) :
    elms.foldl (fun v e => v ++ [e]) val = val ++ elms := by
  induction elms generalizing val with
  | nil => simp
  | cons e es ih => simp [ih, List.append_assoc]

theorem flattenLoop_eq_flatten (entries : List (List Int)) :
    flattenLoop entries = entries.flatten := by
  suffices h : ∀ val, entries.foldl (fun val elms => elms.foldl (fun v e => v ++ [e]) val) val =
      val ++ entries.flatten by
    simpa using h []
  induction entries with
  | nil => simp
  | cons l ls ih =>
    intro val
    rw [List.foldl_cons, foldl_append_singleton, ih (val ++ l)]
    simp [List.append_assoc]

/-- C5: in BCon.ref, an array-typed field value is recorded as the single
flat list obtained by concatenating, in encounter order, the sub-element
values of every array entry (one entry's sub-elements consecutively before
the next entry's) - that is, the flatten of the entry lists. -/
theorem ref_array_field_flattens (entries : List (List Int)) :
    refFieldVal (RFld.array entries) = OutVal.l entries.flatten := by
  simp [refFieldVal, flattenLoop_eq_flatten]

/-! Historical data (BCon.bdh, pdblp.py lines 78-162). -/

/-- A bdh response message: its securityData element either carries a
securityError, or a security name and a fieldData array of rows.  Each row
is the list of its element values in record order; element 0 is the date
and element j (j from 1) is the value of the j-th returned field. -/
structure HDMsg where
  secError : Bool
  security : String
  fieldData : List (List Int)
deriving DecidableEq

/-- One Python dict assignment data[(ticker, fld)][dt] = val. -/
structure Assign where
  key : String × String
  dt : Int
  val : Int
deriving DecidableEq

/-- The inner loop of pdblp.py lines 147-149: walk the row values from
element 1 in lockstep with the requested field list, so the value at
overall position j lands under flds[j-1]; a value with no matching
requested field raises IndexError (flds[j-1] out of range). -/
def bdhValsGo (ticker : String) (dt : Int) : List Int → List String → Except PErr (List Assign)
  | [], _ => .ok []
  | _ :: _, [] => .error .indexError
  | v :: vs, f :: fs =>
    match bdhValsGo ticker dt vs fs with
    | .error e => .error e
    | .ok rest => .ok (⟨(ticker, f), dt, v⟩ :: rest)

/-- Assignments produced from one fieldData row (pdblp.py lines 145-149):
element 0 is read as the date (IndexError on an empty row), the remaining
elements pair positionally with the requested fields. -/
def bdhRowAssigns (flds : List String) (ticker : String) (row : List Int) :
    Except PErr (List Assign) :=
  match row with
  | [] => .error .indexError
  | dt :: vals => bdhValsGo ticker dt vals flds

/-- Assignments produced from one bdh message (pdblp.py lines 138-149): a
securityError element raises LookupError, otherwise every fieldData row is
processed in order. -/
def bdhMsgAssigns (flds : List String) (m : HDMsg) : Except PErr (List Assign) :=
  if m.secError then .error (.lookupError m.security)
  else collectE (bdhRowAssigns flds m.security) m.fieldData

/-- Record extraction of bdh over the messages of one event. -/
def bdhExtract (flds : List String) (ms : List HDMsg) : Except PErr (List Assign) :=
  collectE (bdhMsgAssigns flds) ms

/-- A rectangular result: row keys, column keys, and a cell lookup.  It
models a pandas DataFrame up to the axis orderings and cell contents the
claims are about. -/
structure Table (r k v : Type) where
  rows : List r
  cols : List k
  cell : r → k → Option v

/-- Boolean lexicographic order on (ticker, field) keys, the order pandas
sorts tuple dict keys into. -/
def pairLe (a b : String × String) : Bool :=
  decide (a.1 < b.1) || (decide (a.1 = b.1) && decide (a.2 ≤ b.2))

/-- Boolean order on Int dates, for the DataFrame index. -/
def intLe (a b : Int) : Bool := decide (a ≤ b)

/-- Boolean order on strings. -/
def strLe (a b : String) : Bool := decide (a ≤ b)

/-- Last write wins: the value of dict entry data[k][d] after all the
assignments have run. -/
def lastVal (assigns : List Assign) (k : String × String) (d : Int) : Option Int :=
  (assigns.reverse.find? (fun a => a.key == k && a.dt == d)).map (fun a => a.val)

/-- A bdh result: a single-level-column table when one field was requested
(pdblp.py lines 159-161 drop the field level), a (ticker, field) column
table otherwise. -/
inductive BdhResult
  | single (t : Table Int String Int)
  | multi (t : Table Int (String × String) Int)

/-- The reshaping of pdblp.py lines 155-162: DataFrame(dict-of-dicts) sorts
the (ticker, field) keys into MultiIndex columns and the dates into the
index; for a single requested field the field level is dropped and the
columns are re-selected in caller ticker order, raising KeyError when a
requested ticker never appeared. -/
def bdhShape (tickers flds : List String) (assigns : List Assign) : Except PErr BdhResult :=
  let keys := (assigns.map (fun a => a.key)).dedup
  let cols := keys.mergeSort pairLe
  let idx := ((assigns.map (fun a => a.dt)).dedup).mergeSort intLe
  if flds.length = 1 then
    let cols1 := cols.map (fun p => p.1)
    if tickers.all (fun t => decide (t ∈ cols1)) then
      .ok (.single ⟨idx, tickers,
        fun d t =>
          match flds.head? with
          | some f0 => lastVal assigns (t, f0) d
          | none => none⟩)
    else .error .keyError
  else
    .ok (.multi ⟨idx, cols, fun d k => lastVal assigns k d⟩)

/-- The bdh polling loop (pdblp.py lines 133-153) followed by the reshaping:
terminal event type is RESPONSE. -/
def bdhLoop (tickers flds : List String) (evs : List (Event HDMsg)) (acc : List Assign) :
    Option (Except PErr BdhResult) :=
  evLoop (bdhExtract flds) (fun t => decide (t = EvType.RESPONSE)) (bdhShape tickers flds) evs acc

/-- BCon.bdh on a given event stream, starting from an empty accumulator. -/
def bdhRun (tickers flds : List String) (evs : List (Event HDMsg)) :
    Option (Except PErr BdhResult) :=
  bdhLoop tickers flds evs []

/-- The assignments a stream prefix contributes in bdh (empty if extraction
raises). -/
def bdhRecsOf (flds : List String) (evs : List (Event HDMsg)) : List Assign :=
  match collectEvs (bdhExtract flds) evs with
  | .ok r => r
  | .error _ => []

/-! Reference data continued: messages and extraction of BCon.ref. -/

/-- Element lookup by name inside a record, as blpapi getElement(name) does;
none models the NotFoundException for a missing element. -/
def getNamed {α : Type} (fd : List (String × α)) (name : String) : Option α :=
  (fd.find? (fun p => p.1 == name)).map (fun p => p.2)

/-- One securityData entry of a ref response message: the security name and
its fieldData record, a list of named field elements in record order. -/
structure RefEntry where
  security : String
  fieldData : List (String × RFld)
deriving DecidableEq

/-- A ref response message is its securityData array of entries. -/
abbrev RefMsg := List RefEntry

/-- One accumulated (field, ticker, value) triple of BCon.ref. -/
structure RefRec where
  fld : String
  sec : String
  val : OutVal
deriving DecidableEq

/-- The field loop of pdblp.py lines 217-234: j walks the positions of the
entry's fieldData record (the second argument counts the remaining
positions), fld is the j-th requested field name (IndexError when the
record has more elements than were requested), and the value is looked up
by that name via getElement(fld). -/
def refEntryGo (flds : List String) (sec : String) (fd : List (String × RFld)) :
    Nat → Nat → Except PErr (List RefRec)
  | _, 0 => .ok []
  | j, Nat.succ k =>
    match flds.get? j with
    | none => .error .indexError
    | some fld =>
      match getNamed fd fld with
      | none => .error (.notFound fld)
      | some v =>
        match refEntryGo flds sec fd (j + 1) k with
        | .error e => .error e
        | .ok rest => .ok (⟨fld, sec, refFieldVal v⟩ :: rest)

/-- Triples contributed by one securityData entry. -/
def refEntryRecs (flds : List String) (en : RefEntry) : Except PErr (List RefRec) :=
  refEntryGo flds en.security en.fieldData 0 en.fieldData.length

/-- Record extraction of ref over the messages of one event (pdblp.py lines
209-234). -/
def refExtract (flds : List String) (ms : List RefMsg) : Except PErr (List RefRec) :=
  collectE (fun m => collectE (refEntryRecs flds) m) ms

/-- The reshaping of pdblp.py lines 240-245: pivot(0, 1, 2) fails with
ValueError when some (field, ticker) pair occurs twice, otherwise indexes
by sorted field and columns by sorted ticker; loc[flds, tickers] then
re-selects both axes in caller order, raising KeyError for a requested
label that never appeared. -/
def refShape (tickers flds : List String) (recs : List RefRec) :
    Except PErr (Table String String OutVal) :=
  if (recs.map (fun r => (r.fld, r.sec))).Nodup then
    let idx := ((recs.map (fun r => r.fld)).dedup).mergeSort strLe
    let cols := ((recs.map (fun r => r.sec)).dedup).mergeSort strLe
    if flds.all (fun f => decide (f ∈ idx)) && tickers.all (fun t => decide (t ∈ cols)) then
      .ok ⟨flds, tickers,
        fun f t => (recs.find? (fun r => r.fld == f && r.sec == t)).map (fun r => r.val)⟩
    else .error .keyError
  else .error .valueError

/-- The ref polling loop (pdblp.py lines 206-238) followed by the reshaping;
terminal event type is RESPONSE. -/
def refLoop (tickers flds : List String) (evs : List (Event RefMsg)) (acc : List RefRec) :
    Option (Except PErr (Table String String OutVal)) :=
  evLoop (refExtract flds) (fun t => decide (t = EvType.RESPONSE)) (refShape tickers flds) evs acc

/-- BCon.ref on a given event stream. -/
def refRun (tickers flds : List String) (evs : List (Event RefMsg)) :
    Option (Except PErr (Table String String OutVal)) :=
  refLoop tickers flds evs []

/-- The triples a stream prefix contributes in ref (empty if extraction
raises). -/
def refRecsOf (flds : List String) (evs : List (Event RefMsg)) : List RefRec :=
  match collectEvs (refExtract flds) evs with
  | .ok r => r
  | .error _ => []

/-! Time-sliced reference data (BCon.ref_hist, pdblp.py lines 247-326). -/

/-- One securityData entry of a ref_hist response message; field values are
read with a plain getValue, so they are scalars here. -/
structure RHEntry where
  security : String
  fieldData : List (String × Int)
deriving DecidableEq

/-- A ref_hist response message: its first correlation id value (the date
the request was tagged with) and its securityData entries. -/
structure RHMsg where
  corrID : Nat
  securityData : List RHEntry
deriving DecidableEq

/-- One accumulated (field, ticker, value, date) record of BCon.ref_hist. -/
structure RHRec where
  fld : String
  sec : String
  val : Int
  date : Nat
deriving DecidableEq

/-- The field loop of pdblp.py lines 308-311, positional like ref's: the
j-th requested name is looked up in the record by name. -/
def rhEntryGo (flds : List String) (sec : String) (fd : List (String × Int)) (corr : Nat) :
    Nat → Nat → Except PErr (List RHRec)
  | _, 0 => .ok []
  | j, Nat.succ k =>
    match flds.get? j with
    | none => .error .indexError
    | some fld =>
      match getNamed fd fld with
      | none => .error (.notFound fld)
      | some v =>
        match rhEntryGo flds sec fd corr (j + 1) k with
        | .error e => .error e
        | .ok rest => .ok (⟨fld, sec, v, corr⟩ :: rest)

/-- Records contributed by one ref_hist message (pdblp.py lines 299-311). -/
def rhMsgRecs (flds : List String) (m : RHMsg) : Except PErr (List RHRec) :=
  collectE (fun en => rhEntryGo flds en.security en.fieldData m.corrID 0 en.fieldData.length)
    m.securityData

/-- Record extraction of ref_hist over the messages of one event. -/
def rhExtract (flds : List String) (ms : List RHMsg) : Except PErr (List RHRec) :=
  collectE (rhMsgRecs flds) ms

/-- Business days (pd.date_range freq b) between two day numbers inclusive,
with day numbering anchored so that numbers 0..4 mod 7 are weekdays. -/
def businessDays (s e : Nat) : List Nat :=
  (List.range' s (e + 1 - s)).filter (fun d => decide (d % 7 < 5))

/-- The cardinality test of pdblp.py line 314, written exactly as the Python
true divisions: len(data) / len(flds) / len(tickers) == len(dates). -/
def checkCard (a k m n : Nat) : Bool :=
  decide ((a : ℚ) / (k : ℚ) / (m : ℚ) = (n : ℚ))

/-- A ref_hist result table, shaped like bdh's. -/
inductive RHResult
  | single (t : Table Nat String Int)
  | multi (t : Table Nat (String × String) Int)

/-- The reshaping of pdblp.py lines 318-326: pivot_table indexes by date and
columns by sorted (ticker, field); for a single requested field the field
level is dropped and columns are re-selected in caller ticker order. -/
def refHistShape (tickers flds : List String) (recs : List RHRec) : Except PErr RHResult :=
  let idx := ((recs.map (fun r => r.date)).dedup).mergeSort (fun a b => decide (a ≤ b))
  let cols := ((recs.map (fun r => (r.sec, r.fld))).dedup).mergeSort pairLe
  if flds.length = 1 then
    let cols1 := cols.map (fun p => p.1)
    if tickers.all (fun t => decide (t ∈ cols1)) then
      .ok (.single ⟨idx, tickers,
        fun d t => (recs.find? (fun r => r.sec == t && r.date == d)).map (fun r => r.val)⟩)
    else .error .keyError
  else
    .ok (.multi ⟨idx, cols,
      fun d k =>
        (recs.find? (fun r => r.sec == k.1 && r.fld == k.2 && r.date == d)).map
          (fun r => r.val)⟩)

/-- The terminal step of ref_hist (pdblp.py lines 312-317): when the TIMEOUT
event fires, accept and reshape if the record count reconciles, raise
RuntimeError otherwise. -/
def refHistFinish (tickers flds : List String) (nDates : Nat) (recs : List RHRec) :
    Except PErr RHResult :=
  if checkCard recs.length flds.length tickers.length nDates then refHistShape tickers flds recs
  else .error .runtimeTimeout

/-- The ref_hist polling loop (pdblp.py lines 297-317): the terminal event
type is TIMEOUT, every other event (RESPONSE included) is processed and the
loop continues. -/
def refHistLoop (tickers flds : List String) (nDates : Nat) (evs : List (Event RHMsg))
    (acc : List RHRec) : Option (Except PErr RHResult) :=
  evLoop (rhExtract flds) (fun t => decide (t = EvType.TIMEOUT))
    (refHistFinish tickers flds nDates) evs acc

/-- BCon.ref_hist on a given event stream, for the business-day range between
day numbers s and e. -/
def refHistRun (tickers flds : List String) (s e : Nat) (evs : List (Event RHMsg)) :
    Option (Except PErr RHResult) :=
  refHistLoop tickers flds (businessDays s e).length evs []

/-- The records a stream prefix contributes in ref_hist (empty if extraction
raises). -/
def rhRecsOf (flds : List String) (evs : List (Event RHMsg)) : List RHRec :=
  match collectEvs (rhExtract flds) evs with
  | .ok r => r
  | .error _ => []

/-! Intraday bars (BCon.bdib, pdblp.py lines 328-387). -/

/-- One barTickData record: its named elements in record order; element 0 is
the bar time. -/
abbrev Bar := List (String × Int)

/-- A bdib response message is its barData.barTickData array of records. -/
abbrev BarMsg := List Bar

/-- One dict assignment data[fld][dt] = val of BCon.bdib. -/
structure BarAssign where
  fld : String
  dt : Int
  val : Int
deriving DecidableEq

/-- The fixed field list of pdblp.py line 366. -/
def ohlcv : List String := ["open", "high", "low", "close", "volume"]

/-- The inner loop of pdblp.py lines 375-379: for each of the five fields,
re-read element 0 of the record as the time (IndexError on an empty
record), and look the value up by the field name. -/
def bdibBarGo (bar : Bar) : List String → Except PErr (List BarAssign)
  | [] => .ok []
  | f :: fs =>
    match bar.head? with
    | none => .error .indexError
    | some p0 =>
      match getNamed bar f with
      | none => .error (.notFound f)
      | some v =>
        match bdibBarGo bar fs with
        | .error e => .error e
        | .ok rest => .ok (⟨f, p0.2, v⟩ :: rest)

/-- Assignments contributed by one bdib message (pdblp.py lines 372-379). -/
def bdibMsgAssigns (m : BarMsg) : Except PErr (List BarAssign) :=
  collectE (fun b => bdibBarGo b ohlcv) m

/-- Record extraction of bdib over the messages of one event. -/
def bdibExtract (ms : List BarMsg) : Except PErr (List BarAssign) :=
  collectE bdibMsgAssigns ms

/-- The reshaping of pdblp.py lines 384-387: DataFrame(dict-of-dicts), then
the column re-selection data[flds] forces the fixed open/high/low/close/
volume order, raising KeyError when one of the five never appeared. -/
def bdibShape (assigns : List BarAssign) : Except PErr (Table Int String Int) :=
  let keys := (assigns.map (fun a => a.fld)).dedup
  let idx := ((assigns.map (fun a => a.dt)).dedup).mergeSort intLe
  if ohlcv.all (fun f => decide (f ∈ keys)) then
    .ok ⟨idx, ohlcv,
      fun d f =>
        (assigns.reverse.find? (fun a => a.fld == f && a.dt == d)).map (fun a => a.val)⟩
  else .error .keyError

/-- The bdib polling loop (pdblp.py lines 367-383) followed by the
reshaping; terminal event type is RESPONSE. -/
def bdibLoop (evs : List (Event BarMsg)) (acc : List BarAssign) :
    Option (Except PErr (Table Int String Int)) :=
  evLoop bdibExtract (fun t => decide (t = EvType.RESPONSE)) bdibShape evs acc

/-- BCon.bdib on a given event stream. -/
def bdibRun (evs : List (Event BarMsg)) : Option (Except PErr (Table Int String Int)) :=
  bdibLoop evs []

/-- The assignments a stream prefix contributes in bdib (empty if extraction
raises). -/
def bdibRecsOf (evs : List (Event BarMsg)) : List BarAssign :=
  match collectEvs bdibExtract evs with
  | .ok r => r
  | .error _ => []

/-! Raw passthrough (BCon.custom_req, pdblp.py lines 389-420): every message
of every event is appended to the result list; terminal event type is
RESPONSE. -/

/-- The custom_req polling loop (pdblp.py lines 411-419). -/
def customLoop {M : Type} (evs : List (Event M)) (acc : List M) :
    Option (Except PErr (List M)) :=
  evLoop (fun ms => .ok ms) (fun t => decide (t = EvType.RESPONSE)) (fun ms => .ok ms) evs acc

/-- BCon.custom_req on a given event stream. -/
def customRun {M : Type} (evs : List (Event M)) : Option (Except PErr (List M)) :=
  customLoop evs []

/-! Session-level side effects.  Each method's interaction with the session
before its polling loop is a short sequence of actions on the shared
session handle; we record them as traces to settle the claims about call
structure (drain before send, restart in ref_hist, one request per
business day). -/

/-- An action on the session handle: one successful tryNextEvent drain pass
emptying the pending queue, building the request object, submitting a
request (with its optional correlation id), or recreating the session. -/
inductive SAct
  | drainQueue
  | buildRequest
  | sendReq (cid : Option Nat)
  | restartSession
deriving DecidableEq

/-- True exactly on request submissions. -/
def isSendAct : SAct → Bool
  | .sendReq _ => true
  | _ => false

/-- Pre-loop actions of BCon.bdh (pdblp.py lines 102-129): drain the stale
queue, build the request, send it. -/
def bdhActs : List SAct := [.drainQueue, .buildRequest, .sendReq none]

/-- Pre-loop actions of BCon.ref (pdblp.py lines 180-203). -/
def refActs : List SAct := [.drainQueue, .buildRequest, .sendReq none]

/-- Pre-loop actions of BCon.bdib (pdblp.py lines 348-362). -/
def bdibActs : List SAct := [.drainQueue, .buildRequest, .sendReq none]

/-- Pre-loop actions of BCon.custom_req (pdblp.py lines 403-408): the
request arrives already built. -/
def customActs : List SAct := [.drainQueue, .sendReq none]

/-- Pre-loop actions of BCon.ref_hist (pdblp.py lines 271-294): restart the
session (which replaces the handle, so the fresh queue is empty), build the
request, then send it once per business day with the date as correlation
id. -/
def refHistActs (s e : Nat) : List SAct :=
  .restartSession :: .buildRequest :: (businessDays s e).map (fun d => .sendReq (some d))

/-- Effect of one session action on the pending event queue: a drain pass
leaves it empty, a restart replaces it by a fresh empty queue, the other
actions do not touch it. -/
def queueStep {E : Type} (q : List E) : SAct → List E
  | .drainQueue => []
  | .restartSession => []
  | _ => q

/-- The pending queue after a sequence of actions. -/
def queueAfter {E : Type} (acts : List SAct) (q : List E) : List E :=
  acts.foldl queueStep q

/-- The pending queue at the moment the first request of the call goes out. -/
def queueAtSend {E : Type} (acts : List SAct) (q : List E) : List E :=
  queueAfter (acts.takeWhile (fun a => !isSendAct a)) q

/-- The correlation id of a send action, if the action is one. -/
def sendCid : SAct → Option (Option Nat)
  | .sendReq c => some c
  | _ => none

/-! Helper lemmas for the claim theorems. -/

theorem collectE_singleton {α R : Type} {f : α → Except PErr (List R)} {x : α} {r : List R}
    (h : collectE f [x] = .ok r) : f x = .ok r := by
  simp only [collectE] at h
  cases hx : f x with
  | error er => rw [hx] at h; exact absurd h (by simp)
  | ok a =>
    rw [hx] at h
    simp only [List.append_nil] at h
    exact h

theorem collectE_always_ok {α R : Type} {f : α → Except PErr (List R)}
    (h : ∀ x, ∃ a, f x = .ok a) (xs : List α) : ∃ r, collectE f xs = .ok r := by
  induction xs with
  | nil => exact ⟨[], rfl⟩
  | cons x xs ih =>
    obtain ⟨a, ha⟩ := h x
    obtain ⟨r, hr⟩ := ih
    exact ⟨a ++ r, by rw [collectE_cons_ok ha, hr]⟩

theorem checkCard_iff {a k m n : Nat} (hk : 0 < k) (hm : 0 < m) :
    checkCard a k m n = true ↔ a = n * k * m := by
  unfold checkCard
  rw [decide_eq_true_iff]
  rw [div_div, div_eq_iff (by positivity)]
  constructor
  · intro h
    have : (a : ℚ) = ((n * k * m : ℕ) : ℚ) := by push_cast; linarith [h]
    exact_mod_cast this
  · intro h
    subst h
    push_cast
    ring

theorem businessDays_mem {s e d : Nat} :
    d ∈ businessDays s e ↔ s ≤ d ∧ d ≤ e ∧ d % 7 < 5 := by
  unfold businessDays
  rw [List.mem_filter, List.mem_range'_1, decide_eq_true_iff]
  omega

theorem businessDays_nodup (s e : Nat) : (businessDays s e).Nodup :=
  List.Nodup.filter _ (List.nodup_range' s (e + 1 - s))

/-- C7: BCon.ref_hist first replaces the session with a freshly created one
and only then builds its request, and issues exactly one request per
business day in the inclusive range, each tagged with a distinct
correlation key equal to that day's date. -/
theorem ref_hist_restart_then_one_send_per_business_day (s e : Nat) :
    (refHistActs s e).head? = some SAct.restartSession ∧
    (refHistActs s e).get? 1 = some SAct.buildRequest ∧
    (refHistActs s e).filterMap sendCid = (businessDays s e).map some ∧
    (businessDays s e).Nodup ∧
    (∀ d, d ∈ businessDays s e ↔ (s ≤ d ∧ d ≤ e ∧ d % 7 < 5)) := by
  refine ⟨rfl, rfl, ?_, businessDays_nodup s e, fun d => businessDays_mem⟩
  simp only [refHistActs, List.filterMap_cons]
  rw [List.filterMap_map]
  have : (sendCid ∘ fun d => SAct.sendReq (some d)) = some ∘ some := rfl
  rw [this, List.filterMap_eq_map]
  rfl

/-- The ordering asserted by the spec's control-flow sentence, read off an
action trace: the request parameters are built first and the stale events
are drained only after that. -/
def buildsThenDrains (acts : List SAct) : Prop :=
  ∃ i j : Fin acts.length, i < j ∧ acts.get i = SAct.buildRequest ∧ acts.get j = SAct.drainQueue

/-- C8 counterexample: bdh drains the stale queue before building its
request, not after, and ref_hist (here over the concrete range of day 0 to
day 4) performs no drain pass at all (it restarts the session instead). -/
theorem bdh_never_builds_before_draining :
    ¬ buildsThenDrains bdhActs ∧ SAct.drainQueue ∉ refHistActs 0 4 := by
  constructor
  · unfold buildsThenDrains
    decide
  · decide

/-- C8 amended: each of bdh, ref and bdib first drains all stale pending
events until the queue is empty, then builds its request and only then
submits it; custom_req drains then submits its pre-built request; ref_hist
instead begins by recreating the session, whose fresh queue is empty.  In
every call the pending queue is empty at the moment the first request goes
out, so no event left over from a previous call is ever consumed as part of
the new call's response. -/
theorem calls_submit_on_empty_queue :
    ∀ (q : List (Event Nat)) (s e : Nat),
      queueAtSend bdhActs q = [] ∧ queueAtSend refActs q = [] ∧
      queueAtSend bdibActs q = [] ∧ queueAtSend customActs q = [] ∧
      queueAtSend (refHistActs s e) q = [] ∧
      bdhActs.head? = some SAct.drainQueue ∧ refActs.head? = some SAct.drainQueue ∧
      bdibActs.head? = some SAct.drainQueue ∧ customActs.head? = some SAct.drainQueue ∧
      (refHistActs s e).head? = some SAct.restartSession := by
  intro q s e
  refine ⟨rfl, rfl, rfl, rfl, ?_, rfl, rfl, rfl, rfl, ?_⟩
  · unfold queueAtSend refHistActs
    cases businessDays s e with
    | nil => rfl
    | cons d ds => rfl
  · unfold refHistActs
    rfl

/-- C10: the loops of bdh, ref, bdib and custom_req terminate only when a
RESPONSE event arrives: every other event type (TIMEOUT included) is
processed and the loop continues, so on a stream holding no RESPONSE event
(and raising no exception while its messages are processed) these calls
never return. -/
theorem loops_return_only_on_response (tickers flds : List String)
    (evsH : List (Event HDMsg)) (evsR : List (Event RefMsg)) (evsB : List (Event BarMsg))
    (evsC : List (Event Nat)) :
    ((∀ x ∈ evsH, x.etype ≠ EvType.RESPONSE) →
      (∃ r, collectEvs (bdhExtract flds) evsH = .ok r) → bdhRun tickers flds evsH = none) ∧
    ((∀ x ∈ evsR, x.etype ≠ EvType.RESPONSE) →
      (∃ r, collectEvs (refExtract flds) evsR = .ok r) → refRun tickers flds evsR = none) ∧
    ((∀ x ∈ evsB, x.etype ≠ EvType.RESPONSE) →
      (∃ r, collectEvs bdibExtract evsB = .ok r) → bdibRun evsB = none) ∧
    ((∀ x ∈ evsC, x.etype ≠ EvType.RESPONSE) → customRun evsC = none) ∧
    (∀ (ev : Event HDMsg) (evs : List (Event HDMsg)) (acc rs : List Assign),
      ev.etype ≠ EvType.RESPONSE → bdhExtract flds ev.msgs = .ok rs →
      bdhLoop tickers flds (ev :: evs) acc = bdhLoop tickers flds evs (acc ++ rs)) := by
  refine ⟨?_, ?_, ?_, ?_, ?_⟩
  · rintro h ⟨r, hr⟩
    exact evLoop_none (fun x hx => decide_eq_false (h x hx)) hr []
  · rintro h ⟨r, hr⟩
    exact evLoop_none (fun x hx => decide_eq_false (h x hx)) hr []
  · rintro h ⟨r, hr⟩
    exact evLoop_none (fun x hx => decide_eq_false (h x hx)) hr []
  · intro h
    obtain ⟨r, hr⟩ := collectE_always_ok (f := fun ms : List Nat => Except.ok ms)
      (fun x => ⟨x, rfl⟩) (evsC.map (fun e => e.msgs))
    have hx : ∃ r, collectEvs (M := Nat) (fun ms => .ok ms) evsC = .ok r := by
      refine collectE_always_ok ?_ evsC
      intro x
      exact ⟨x.msgs, rfl⟩
    obtain ⟨r2, hr2⟩ := hx
    exact evLoop_none (fun x hx => decide_eq_false (h x hx)) hr2 []
  · intro ev evs acc rs hne hx
    unfold bdhLoop
    rw [evLoop_cons_ok hx, if_neg (by simp [hne])]

/-- C10 witness: concrete RESPONSE-free single-event streams on which all
four calls are still waiting, and a concrete processed-and-continue step. -/
theorem loops_return_only_on_response_witness :
    bdhRun ["t"] ["f"] [⟨EvType.TIMEOUT, []⟩] = none ∧
    refRun ["t"] ["f"] [⟨EvType.TIMEOUT, []⟩] = none ∧
    bdibRun [⟨EvType.TIMEOUT, []⟩] = none ∧
    customRun [(⟨EvType.PARTIAL, [7]⟩ : Event Nat)] = none ∧
    bdhLoop ["t"] ["f"] [⟨EvType.TIMEOUT, []⟩] [] = bdhLoop ["t"] ["f"] [] [] := by
  have h := loops_return_only_on_response ["t"] ["f"]
    [⟨EvType.TIMEOUT, []⟩] [⟨EvType.TIMEOUT, []⟩] [⟨EvType.TIMEOUT, []⟩]
    [⟨EvType.PARTIAL, [7]⟩]
  exact ⟨h.1 (by decide) ⟨[], rfl⟩, h.2.1 (by decide) ⟨[], rfl⟩, h.2.2.1 (by decide) ⟨[], rfl⟩,
    h.2.2.2.1 (by decide), h.2.2.2.2 ⟨EvType.TIMEOUT, []⟩ [] [] [] (by decide) rfl⟩

/-- C1: in BCon.ref_hist, when the TIMEOUT event fires the call completes
normally (reshapes and returns) exactly when the accumulated record count
equals dates times fields times tickers; any other count - one record
short included - raises the RuntimeError and returns no partial data. -/
theorem ref_hist_timeout_cardinality (tickers flds : List String) (s e : Nat)
    (pre : List (Event RHMsg)) (ev : Event RHMsg)
    (hpre : ∀ x ∈ pre, x.etype ≠ EvType.TIMEOUT)
    (hok : ∃ r, collectEvs (rhExtract flds) (pre ++ [ev]) = .ok r)
    (hev : ev.etype = EvType.TIMEOUT)
    (hk : 0 < flds.length) (hm : 0 < tickers.length) :
    ((rhRecsOf flds (pre ++ [ev])).length =
        (businessDays s e).length * flds.length * tickers.length →
      refHistRun tickers flds s e (pre ++ [ev]) =
        some (refHistShape tickers flds (rhRecsOf flds (pre ++ [ev])))) ∧
    ((rhRecsOf flds (pre ++ [ev])).length ≠
        (businessDays s e).length * flds.length * tickers.length →
      refHistRun tickers flds s e (pre ++ [ev]) = some (.error PErr.runtimeTimeout)) := by
  obtain ⟨r, hr⟩ := hok
  obtain ⟨r1, r2, hr1, hr2, hsplit⟩ := collectE_split hr
  have hrecs : rhRecsOf flds (pre ++ [ev]) = r := by
    unfold rhRecsOf
    rw [hr]
  have hx2 : rhExtract flds ev.msgs = .ok r2 := collectE_singleton hr2
  have hrun : refHistRun tickers flds s e (pre ++ [ev]) =
      some (refHistFinish tickers flds (businessDays s e).length r) := by
    unfold refHistRun refHistLoop
    rw [evLoop_append (fun x hx => decide_eq_false (hpre x hx)) hr1]
    rw [evLoop_cons_ok hx2, if_pos (by rw [hev]; decide), List.nil_append, hsplit]
  rw [hrecs]
  constructor
  · intro hcount
    rw [hrun]
    unfold refHistFinish
    rw [if_pos]
    rw [checkCard_iff hk hm]
    omega
  · intro hcount
    rw [hrun]
    unfold refHistFinish
    rw [if_neg]
    intro hc
    rw [checkCard_iff hk hm] at hc
    omega

/-- C1 witness: a single TIMEOUT event carrying no records over the one
business day 0, one ticker and one field: zero records against an expected
one, so the call raises the timeout error. -/
theorem ref_hist_timeout_cardinality_witness :
    (∃ r, collectEvs (rhExtract ["f"]) ([] ++ [⟨EvType.TIMEOUT, []⟩]) = .ok r) ∧
    0 < (["f"] : List String).length ∧ 0 < (["t"] : List String).length ∧
    (rhRecsOf ["f"] ([] ++ [⟨EvType.TIMEOUT, []⟩])).length ≠
      (businessDays 0 0).length * (["f"] : List String).length * (["t"] : List String).length ∧
    refHistRun ["t"] ["f"] 0 0 ([] ++ [⟨EvType.TIMEOUT, []⟩]) = some (.error PErr.runtimeTimeout) :=
  ⟨⟨[], rfl⟩, by decide, by decide, by decide,
    (ref_hist_timeout_cardinality ["t"] ["f"] 0 0 [] ⟨EvType.TIMEOUT, []⟩ (by decide)
      ⟨[], rfl⟩ rfl (by decide) (by decide)).2 (by decide)⟩

/-- C2: in BCon.bdh, a received message whose securityData carries a
securityError element raises LookupError - an error kind distinct from the
cardinality RuntimeError of ref_hist - and the call aborts instead of
returning a table that silently omits the instrument. -/
theorem bdh_security_error_raises_lookup (tickers flds : List String)
    (pre : List (Event HDMsg)) (ev : Event HDMsg) (post : List (Event HDMsg))
    (ms1 ms2 : List HDMsg) (m : HDMsg)
    (hpre : ∀ x ∈ pre, x.etype ≠ EvType.RESPONSE)
    (hpreok : ∃ r, collectEvs (bdhExtract flds) pre = .ok r)
    (hmsgs : ev.msgs = ms1 ++ m :: ms2)
    (hms1 : ∃ r, bdhExtract flds ms1 = .ok r)
    (herr : m.secError = true) :
    bdhRun tickers flds (pre ++ ev :: post) = some (.error (PErr.lookupError m.security)) ∧
    ∀ sec, PErr.lookupError sec ≠ PErr.runtimeTimeout := by
  obtain ⟨r0, hr0⟩ := hpreok
  obtain ⟨r1, hr1⟩ := hms1
  have hm : bdhMsgAssigns flds m = .error (.lookupError m.security) := by
    unfold bdhMsgAssigns
    rw [if_pos herr]
  have hext : bdhExtract flds ev.msgs = .error (.lookupError m.security) := by
    rw [hmsgs]
    unfold bdhExtract at hr1 ⊢
    rw [collectE_append_ok hr1 (m :: ms2), collectE_cons_error hm ms2]
    rfl
  refine ⟨?_, fun sec => by simp⟩
  unfold bdhRun bdhLoop
  rw [evLoop_append (fun x hx => decide_eq_false (hpre x hx)) hr0]
  exact evLoop_cons_error hext post _

/-- C2 witness: one event whose only message reports a security error; the
call raises the lookup error for that security. -/
theorem bdh_security_error_raises_lookup_witness :
    (∃ r, collectEvs (bdhExtract ["f"]) ([] : List (Event HDMsg)) = .ok r) ∧
    (∃ r, bdhExtract ["f"] ([] : List HDMsg) = .ok r) ∧
    (⟨EvType.PARTIAL, [⟨true, "t", []⟩]⟩ : Event HDMsg).msgs = [] ++ ⟨true, "t", []⟩ :: [] ∧
    bdhRun ["t"] ["f"] ([] ++ (⟨EvType.PARTIAL, [⟨true, "t", []⟩]⟩ : Event HDMsg) :: []) =
      some (.error (PErr.lookupError "t")) :=
  ⟨⟨[], rfl⟩, ⟨[], rfl⟩, rfl,
    (bdh_security_error_raises_lookup ["t"] ["f"] [] ⟨EvType.PARTIAL, [⟨true, "t", []⟩]⟩ []
      [] [] ⟨true, "t", []⟩ (by decide) ⟨[], rfl⟩ rfl ⟨[], rfl⟩ rfl).1⟩

/-- The attribution rule the claim asserts for ref, modelled from the
claim's words: the value of the j-th field element of the record is
recorded under the j-th requested name, by position alone and never by the
element's own name. -/
def refEntryRecsByPosition (flds : List String) (en : RefEntry) : List RefRec :=
  (flds.zip en.fieldData).map (fun p => ⟨p.1, en.security, refFieldVal p.2.2⟩)

/-- C9 counterexample: a record that carries the two requested fields in
reversed order.  BCon.ref looks each value up by name (getElement(fld)), so
value 1 - the element named A - is recorded under A, where the claim's
positional rule would record value 2 (the record's 0-th element) under A. -/
theorem ref_attribution_follows_names_not_positions :
    refEntryRecs ["A", "B"] ⟨"T", [("B", RFld.scalar 2), ("A", RFld.scalar 1)]⟩ =
      .ok [⟨"A", "T", OutVal.s 1⟩, ⟨"B", "T", OutVal.s 2⟩] ∧
    refEntryRecsByPosition ["A", "B"] ⟨"T", [("B", RFld.scalar 2), ("A", RFld.scalar 1)]⟩ =
      [⟨"A", "T", OutVal.s 2⟩, ⟨"B", "T", OutVal.s 1⟩] ∧
    refEntryRecs ["A", "B"] ⟨"T", [("B", RFld.scalar 2), ("A", RFld.scalar 1)]⟩ ≠
      .ok (refEntryRecsByPosition ["A", "B"]
        ⟨"T", [("B", RFld.scalar 2), ("A", RFld.scalar 1)]⟩) := by
  refine ⟨?_, ?_, ?_⟩ <;> decide

theorem bdhValsGo_ok (ticker : String) (dt : Int) :
    ∀ (vals : List Int) (flds : List String), vals.length ≤ flds.length →
      bdhValsGo ticker dt vals flds =
        .ok ((vals.zip flds).map (fun p => ⟨(ticker, p.2), dt, p.1⟩)) := by
  intro vals
  induction vals with
  | nil => intro flds _; cases flds <;> rfl
  | cons v vs ih =>
    intro flds h
    cases flds with
    | nil => simp at h
    | cons f fs =>
      simp only [bdhValsGo]
      rw [ih fs (by simpa using h)]
      rfl

theorem refEntryGo_ok (flds : List String) (sec : String) (fd : List (String × RFld))
    (hsome : ∀ f ∈ flds, (getNamed fd f).isSome = true) :
    ∀ (k j : Nat), j + k = flds.length →
      refEntryGo flds sec fd j k =
        .ok ((flds.drop j).map
          (fun f => ⟨f, sec, refFieldVal ((getNamed fd f).getD (RFld.scalar 0))⟩)) := by
  intro k
  induction k with
  | zero =>
    intro j hj
    have hjl : j = flds.length := by omega
    subst hjl
    rw [List.drop_length]
    rfl
  | succ k ih =>
    intro j hj
    have hjlt : j < flds.length := by omega
    have hget : flds.get? j = some flds[j] := by
      rw [List.get?_eq_getElem?, List.getElem?_eq_getElem hjlt]
    have hmem : flds[j] ∈ flds := List.getElem_mem hjlt
    obtain ⟨v, hv⟩ := Option.isSome_iff_exists.mp (hsome _ hmem)
    simp only [refEntryGo]
    rw [hget]
    simp only [hv]
    rw [ih (j + 1) (by omega)]
    rw [List.drop_eq_getElem_cons hjlt, List.map_cons, hv]
    rfl

theorem rhEntryGo_ok (flds : List String) (sec : String) (fd : List (String × Int)) (corr : Nat)
    (hsome : ∀ f ∈ flds, (getNamed fd f).isSome = true) :
    ∀ (k j : Nat), j + k = flds.length →
      rhEntryGo flds sec fd corr j k =
        .ok ((flds.drop j).map (fun f => ⟨f, sec, (getNamed fd f).getD 0, corr⟩)) := by
  intro k
  induction k with
  | zero =>
    intro j hj
    have hjl : j = flds.length := by omega
    subst hjl
    rw [List.drop_length]
    rfl
  | succ k ih =>
    intro j hj
    have hjlt : j < flds.length := by omega
    have hget : flds.get? j = some flds[j] := by
      rw [List.get?_eq_getElem?, List.getElem?_eq_getElem hjlt]
    have hmem : flds[j] ∈ flds := List.getElem_mem hjlt
    obtain ⟨v, hv⟩ := Option.isSome_iff_exists.mp (hsome _ hmem)
    simp only [rhEntryGo]
    rw [hget]
    simp only [hv]
    rw [ih (j + 1) (by omega)]
    rw [List.drop_eq_getElem_cons hjlt, List.map_cons, hv]
    rfl

/-- C9 amended: in bdh the attribution is purely positional - the row value
at overall element position j is recorded under the (j-1)-th requested
name, so it is correct only when the record carries the requested fields in
request order.  In ref and ref_hist the loop runs once per element of the
record but takes the j-th requested name and looks the value up by that
name, so values follow their element's own name; the attribution is
complete and correct exactly when the record carries all of the requested
fields (with as many elements as names, in any order). -/
theorem field_attribution_rules (flds : List String) (ticker : String) (dt : Int)
    (vals : List Int) (en : RefEntry) (rn : RHEntry) (corr : Nat)
    (hlen : vals.length ≤ flds.length)
    (hen : en.fieldData.length = flds.length)
    (hsome : ∀ f ∈ flds, (getNamed en.fieldData f).isSome = true)
    (hrn : rn.fieldData.length = flds.length)
    (hrsome : ∀ f ∈ flds, (getNamed rn.fieldData f).isSome = true) :
    bdhRowAssigns flds ticker (dt :: vals) =
      .ok ((vals.zip flds).map (fun p => ⟨(ticker, p.2), dt, p.1⟩)) ∧
    refEntryRecs flds en =
      .ok (flds.map
        (fun f => ⟨f, en.security, refFieldVal ((getNamed en.fieldData f).getD (RFld.scalar 0))⟩)) ∧
    rhEntryGo flds rn.security rn.fieldData corr 0 rn.fieldData.length =
      .ok (flds.map (fun f => ⟨f, rn.security, (getNamed rn.fieldData f).getD 0, corr⟩)) := by
  refine ⟨bdhValsGo_ok ticker dt vals flds hlen, ?_, ?_⟩
  · unfold refEntryRecs
    rw [hen, refEntryGo_ok flds en.security en.fieldData hsome flds.length 0 (by omega)]
    rw [List.drop_zero]
  · rw [hrn, rhEntryGo_ok flds rn.security rn.fieldData corr hrsome flds.length 0 (by omega)]
    rw [List.drop_zero]

/-- C9 amended witness: two fields requested; the ref and ref_hist records
carry them in reversed order and are still attributed by name, the bdh row
is attributed by position. -/
theorem field_attribution_rules_witness :
    (([10, 20] : List Int).length ≤ (["A", "B"] : List String).length) ∧
    bdhRowAssigns ["A", "B"] "T" (0 :: [10, 20]) =
      .ok [⟨("T", "A"), 0, 10⟩, ⟨("T", "B"), 0, 20⟩] ∧
    refEntryRecs ["A", "B"] ⟨"T", [("B", RFld.scalar 2), ("A", RFld.scalar 1)]⟩ =
      .ok [⟨"A", "T", OutVal.s 1⟩, ⟨"B", "T", OutVal.s 2⟩] ∧
    rhEntryGo ["A", "B"] "T" [("B", 2), ("A", 1)] 5 0 2 =
      .ok [⟨"A", "T", 1, 5⟩, ⟨"B", "T", 2, 5⟩] := by
  have h := field_attribution_rules ["A", "B"] "T" 0 [10, 20]
    ⟨"T", [("B", RFld.scalar 2), ("A", RFld.scalar 1)]⟩ ⟨"T", [("B", 2), ("A", 1)]⟩ 5
    (by decide) (by decide) (by decide) (by decide) (by decide)
  exact ⟨by decide, h.1, h.2.1, h.2.2⟩

theorem mem_sortedDedup {α : Type} [DecidableEq α] {l : List α} {le : α → α → Bool} {a : α} :
    a ∈ l.dedup.mergeSort le ↔ a ∈ l := by
  rw [(List.mergeSort_perm l.dedup le).mem_iff, List.mem_dedup]

/-- C4: BCon.ref returns the table indexed by field and columned by ticker,
its row order equal to the caller's field list and its column order equal
to the caller's ticker list, whatever order the vendor delivered the
records in. -/
theorem ref_axis_order (tickers flds : List String) (pre : List (Event RefMsg)) (ev : Event RefMsg)
    (hpre : ∀ x ∈ pre, x.etype ≠ EvType.RESPONSE)
    (hok : ∃ r, collectEvs (refExtract flds) (pre ++ [ev]) = .ok r)
    (hev : ev.etype = EvType.RESPONSE)
    (htne : tickers ≠ []) (hfne : flds ≠ [])
    (hnodup : ((refRecsOf flds (pre ++ [ev])).map (fun x => (x.fld, x.sec))).Nodup)
    (hcover : ∀ f ∈ flds, ∀ t ∈ tickers,
      (f, t) ∈ (refRecsOf flds (pre ++ [ev])).map (fun x => (x.fld, x.sec))) :
    ∃ tbl : Table String String OutVal,
      refRun tickers flds (pre ++ [ev]) = some (.ok tbl) ∧
      tbl.rows = flds ∧ tbl.cols = tickers := by
  obtain ⟨r, hr⟩ := hok
  obtain ⟨r1, r2, hr1, hr2, hsplit⟩ := collectE_split hr
  have hrecs : refRecsOf flds (pre ++ [ev]) = r := by
    unfold refRecsOf
    rw [hr]
  rw [hrecs] at hnodup hcover
  have hx2 : refExtract flds ev.msgs = .ok r2 := collectE_singleton hr2
  have hrun : refRun tickers flds (pre ++ [ev]) = some (refShape tickers flds r) := by
    unfold refRun refLoop
    rw [evLoop_append (fun x hx => decide_eq_false (hpre x hx)) hr1]
    rw [evLoop_cons_ok hx2, if_pos (by rw [hev]; decide), List.nil_append, hsplit]
  obtain ⟨t0, ht0⟩ := List.exists_mem_of_ne_nil tickers htne
  obtain ⟨f0, hf0⟩ := List.exists_mem_of_ne_nil flds hfne
  have hcheck :
      (flds.all (fun f => decide (f ∈ ((r.map (fun x => x.fld)).dedup).mergeSort strLe)) &&
       tickers.all (fun t => decide (t ∈ ((r.map (fun x => x.sec)).dedup).mergeSort strLe)))
        = true := by
    rw [Bool.and_eq_true, List.all_eq_true, List.all_eq_true]
    constructor
    · intro f hf
      rw [decide_eq_true_iff, mem_sortedDedup]
      obtain ⟨x, hx, hxe⟩ := List.mem_map.mp (hcover f hf t0 ht0)
      have h1 : x.fld = f := congrArg Prod.fst hxe
      exact List.mem_map.mpr ⟨x, hx, h1⟩
    · intro t ht
      rw [decide_eq_true_iff, mem_sortedDedup]
      obtain ⟨x, hx, hxe⟩ := List.mem_map.mp (hcover f0 hf0 t ht)
      have h2 : x.sec = t := congrArg Prod.snd hxe
      exact List.mem_map.mpr ⟨x, hx, h2⟩
  refine ⟨⟨flds, tickers,
    fun f t => (r.find? (fun x => x.fld == f && x.sec == t)).map (fun x => x.val)⟩, ?_, rfl, rfl⟩
  rw [hrun]
  simp only [refShape]
  rw [if_pos hnodup, if_pos hcheck]

/-- C4 witness: one RESPONSE event delivering both requested fields of the
single requested ticker; the table comes back with rows [A, B] and columns
[t]. -/
theorem ref_axis_order_witness :
    (∃ r, collectEvs (refExtract ["A", "B"])
      ([] ++ [⟨EvType.RESPONSE, [[⟨"t", [("A", RFld.scalar 1), ("B", RFld.scalar 2)]⟩]]⟩]) =
        .ok r) ∧
    ((refRecsOf ["A", "B"]
        ([] ++ [⟨EvType.RESPONSE, [[⟨"t", [("A", RFld.scalar 1), ("B", RFld.scalar 2)]⟩]]⟩])).map
      (fun x => (x.fld, x.sec))).Nodup ∧
    (∃ tbl : Table String String OutVal,
      refRun ["t"] ["A", "B"]
          ([] ++ [⟨EvType.RESPONSE, [[⟨"t", [("A", RFld.scalar 1), ("B", RFld.scalar 2)]⟩]]⟩]) =
        some (.ok tbl) ∧
      tbl.rows = ["A", "B"] ∧ tbl.cols = ["t"]) :=
  ⟨⟨_, rfl⟩, by decide,
    ref_axis_order ["t"] ["A", "B"] []
      ⟨EvType.RESPONSE, [[⟨"t", [("A", RFld.scalar 1), ("B", RFld.scalar 2)]⟩]]⟩
      (by decide) ⟨_, rfl⟩ rfl (by decide) (by decide) (by decide) (by decide)⟩

theorem bdibBarGo_fields {bar : Bar} :
    ∀ {fs : List String} {rs : List BarAssign},
      bdibBarGo bar fs = .ok rs → rs.map (fun a => a.fld) = fs := by
  intro fs
  induction fs with
  | nil =>
    intro rs h
    simp only [bdibBarGo] at h
    cases h
    rfl
  | cons f fs ih =>
    intro rs h
    simp only [bdibBarGo] at h
    cases hh : bar.head? with
    | none => rw [hh] at h; exact absurd h (by simp)
    | some p0 =>
      rw [hh] at h
      cases hn : getNamed bar f with
      | none => rw [hn] at h; exact absurd h (by simp)
      | some v =>
        rw [hn] at h
        cases hrec : bdibBarGo bar fs with
        | error e => rw [hrec] at h; exact absurd h (by simp)
        | ok rest =>
          rw [hrec] at h
          cases h
          simp [ih hrec]

theorem collectE_cover {α : Type} {f : α → Except PErr (List BarAssign)}
    (hf : ∀ x b, f x = .ok b → b = [] ∨ ∀ g ∈ ohlcv, g ∈ b.map (fun a => a.fld)) :
    ∀ (xs : List α) (rs : List BarAssign), collectE f xs = .ok rs →
      rs = [] ∨ ∀ g ∈ ohlcv, g ∈ rs.map (fun a => a.fld) := by
  intro xs
  induction xs with
  | nil =>
    intro rs h
    simp only [collectE] at h
    cases h
    exact Or.inl rfl
  | cons x xs ih =>
    intro rs h
    simp only [collectE] at h
    cases hx : f x with
    | error e => rw [hx] at h; exact absurd h (by simp)
    | ok a =>
      rw [hx] at h
      cases hxs : collectE f xs with
      | error e => rw [hxs] at h; exact absurd h (by simp)
      | ok b =>
        rw [hxs] at h
        cases h
        rcases hf x a hx with ha | ha
        · subst ha
          simpa using ih b hxs
        · refine Or.inr (fun g hg => ?_)
          rw [List.map_append]
          exact List.mem_append.mpr (Or.inl (ha g hg))

theorem bdibExtract_cover {ms : List BarMsg} {rs : List BarAssign}
    (h : bdibExtract ms = .ok rs) :
    rs = [] ∨ ∀ g ∈ ohlcv, g ∈ rs.map (fun a => a.fld) := by
  have hbar : ∀ (bar : Bar) b, bdibBarGo bar ohlcv = .ok b →
      b = [] ∨ ∀ g ∈ ohlcv, g ∈ b.map (fun a => a.fld) := by
    intro bar b hb
    refine Or.inr (fun g hg => ?_)
    rw [bdibBarGo_fields hb]
    exact hg
  exact collectE_cover (fun m b hb => collectE_cover hbar m b hb) ms rs h

/-- C6: BCon.bdib always returns its table with the fixed column order
open, high, low, close, volume - whatever order the vendor delivered the
named fields within each bar record. -/
theorem bdib_fixed_column_order (pre : List (Event BarMsg)) (ev : Event BarMsg)
    (hpre : ∀ x ∈ pre, x.etype ≠ EvType.RESPONSE)
    (hok : ∃ r, collectEvs bdibExtract (pre ++ [ev]) = .ok r)
    (hev : ev.etype = EvType.RESPONSE)
    (hne : bdibRecsOf (pre ++ [ev]) ≠ []) :
    ∃ tbl : Table Int String Int,
      bdibRun (pre ++ [ev]) = some (.ok tbl) ∧
      tbl.cols = ["open", "high", "low", "close", "volume"] := by
  obtain ⟨r, hr⟩ := hok
  obtain ⟨r1, r2, hr1, hr2, hsplit⟩ := collectE_split hr
  have hrecs : bdibRecsOf (pre ++ [ev]) = r := by
    unfold bdibRecsOf
    rw [hr]
  rw [hrecs] at hne
  have hx2 : bdibExtract ev.msgs = .ok r2 := collectE_singleton hr2
  have hrun : bdibRun (pre ++ [ev]) = some (bdibShape r) := by
    unfold bdibRun bdibLoop
    rw [evLoop_append (fun x hx => decide_eq_false (hpre x hx)) hr1]
    rw [evLoop_cons_ok hx2, if_pos (by rw [hev]; decide), List.nil_append, hsplit]
  have hr' : collectE (fun e => bdibExtract e.msgs) (pre ++ [ev]) = .ok r := hr
  rcases collectE_cover (fun x b hb => bdibExtract_cover hb) (pre ++ [ev]) r hr' with hnil | hcov
  case inl => exact absurd hnil hne
  case inr =>
  have hcheck : ohlcv.all (fun f => decide (f ∈ (r.map (fun a => a.fld)).dedup)) = true := by
    rw [List.all_eq_true]
    intro f hf
    rw [decide_eq_true_iff, List.mem_dedup]
    exact hcov f hf
  refine ⟨⟨((r.map (fun a => a.dt)).dedup).mergeSort intLe, ohlcv,
    fun d f => (r.reverse.find? (fun a => a.fld == f && a.dt == d)).map (fun a => a.val)⟩,
    ?_, rfl⟩
  rw [hrun]
  simp only [bdibShape]
  rw [if_pos hcheck]

/-- C6 witness: one RESPONSE event with a single bar whose named elements
arrive in a shuffled order; the table still comes back with the fixed
open/high/low/close/volume column order. -/
theorem bdib_fixed_column_order_witness :
    (∃ r, collectEvs bdibExtract
      ([] ++ [⟨EvType.RESPONSE,
        [[[("time", 0), ("volume", 5), ("close", 4), ("open", 1), ("high", 2), ("low", 3)]]]⟩]) =
        .ok r) ∧
    bdibRecsOf ([] ++ [⟨EvType.RESPONSE,
        [[[("time", 0), ("volume", 5), ("close", 4), ("open", 1), ("high", 2), ("low", 3)]]]⟩]) ≠
      [] ∧
    ∃ tbl : Table Int String Int,
      bdibRun ([] ++ [⟨EvType.RESPONSE,
          [[[("time", 0), ("volume", 5), ("close", 4), ("open", 1), ("high", 2), ("low", 3)]]]⟩]) =
        some (.ok tbl) ∧
      tbl.cols = ["open", "high", "low", "close", "volume"] :=
  ⟨⟨_, rfl⟩, by decide,
    bdib_fixed_column_order []
      ⟨EvType.RESPONSE,
        [[[("time", 0), ("volume", 5), ("close", 4), ("open", 1), ("high", 2), ("low", 3)]]]⟩
      (by decide) ⟨_, rfl⟩ rfl (by decide)⟩

theorem pairLe_trans (a b c : String × String) :
    pairLe a b = true → pairLe b c = true → pairLe a c = true := by
  unfold pairLe
  simp only [Bool.or_eq_true, Bool.and_eq_true, decide_eq_true_iff]
  rintro (h1 | ⟨h1, h2⟩) (h3 | ⟨h3, h4⟩)
  · exact Or.inl (lt_trans h1 h3)
  · exact Or.inl (lt_of_lt_of_eq h1 h3)
  · exact Or.inl (lt_of_eq_of_lt h1 h3)
  · exact Or.inr ⟨h1.trans h3, h2.trans h4⟩

theorem pairLe_total (a b : String × String) : (pairLe a b || pairLe b a) = true := by
  unfold pairLe
  simp only [Bool.or_eq_true, Bool.and_eq_true, decide_eq_true_iff]
  rcases lt_trichotomy a.1 b.1 with h | h | h
  · exact Or.inl (Or.inl h)
  · rcases le_total a.2 b.2 with h2 | h2
    · exact Or.inl (Or.inr ⟨h, h2⟩)
    · exact Or.inr (Or.inr ⟨h.symm, h2⟩)
  · exact Or.inr (Or.inl h)

/-- C3: bdh column structure.  When exactly one field is requested the
table has single-level columns in exactly the caller's ticker order; for
any other field count it has exactly one column per (ticker, field) pair,
under the sorted two-level key - in both cases regardless of the order in
which the vendor delivered the records. -/
theorem bdh_column_order (tickers flds : List String) (pre : List (Event HDMsg)) (ev : Event HDMsg)
    (hpre : ∀ x ∈ pre, x.etype ≠ EvType.RESPONSE)
    (hok : ∃ r, collectEvs (bdhExtract flds) (pre ++ [ev]) = .ok r)
    (hev : ev.etype = EvType.RESPONSE)
    (hnodT : tickers.Nodup) (hnodF : flds.Nodup)
    (hcover : ∀ t ∈ tickers, ∀ f ∈ flds,
      (t, f) ∈ (bdhRecsOf flds (pre ++ [ev])).map (fun a => a.key))
    (hsub : ∀ k ∈ (bdhRecsOf flds (pre ++ [ev])).map (fun a => a.key),
      k.1 ∈ tickers ∧ k.2 ∈ flds) :
    (flds.length = 1 →
      ∃ t1 : Table Int String Int,
        bdhRun tickers flds (pre ++ [ev]) = some (.ok (BdhResult.single t1)) ∧
        t1.cols = tickers) ∧
    (flds.length ≠ 1 →
      ∃ t2 : Table Int (String × String) Int,
        bdhRun tickers flds (pre ++ [ev]) = some (.ok (BdhResult.multi t2)) ∧
        t2.cols.Perm (tickers ×ˢ flds) ∧
        t2.cols.Pairwise (fun a b => pairLe a b = true)) := by
  obtain ⟨r, hr⟩ := hok
  obtain ⟨r1, r2, hr1, hr2, hsplit⟩ := collectE_split hr
  have hrecs : bdhRecsOf flds (pre ++ [ev]) = r := by
    unfold bdhRecsOf
    rw [hr]
  rw [hrecs] at hcover hsub
  have hx2 : bdhExtract flds ev.msgs = .ok r2 := collectE_singleton hr2
  have hrun : bdhRun tickers flds (pre ++ [ev]) = some (bdhShape tickers flds r) := by
    unfold bdhRun bdhLoop
    rw [evLoop_append (fun x hx => decide_eq_false (hpre x hx)) hr1]
    rw [evLoop_cons_ok hx2, if_pos (by rw [hev]; decide), List.nil_append, hsplit]
  constructor
  · intro h1
    obtain ⟨f0, hf0⟩ := List.length_eq_one.mp h1
    subst hf0
    have hall : tickers.all (fun t => decide (t ∈
        ((r.map (fun a => a.key)).dedup.mergeSort pairLe).map (fun p => p.1))) = true := by
      rw [List.all_eq_true]
      intro t ht
      rw [decide_eq_true_iff]
      have hk : (t, f0) ∈ r.map (fun a => a.key) := hcover t ht f0 (by simp)
      exact List.mem_map.mpr ⟨(t, f0), mem_sortedDedup.mpr hk, rfl⟩
    rw [hrun]
    simp only [bdhShape]
    rw [if_pos h1, if_pos hall]
    exact ⟨_, rfl, rfl⟩
  · intro h1
    have hperm : ((r.map (fun a => a.key)).dedup.mergeSort pairLe).Perm (tickers ×ˢ flds) := by
      refine (List.mergeSort_perm _ pairLe).trans ?_
      rw [List.perm_ext_iff_of_nodup (List.nodup_dedup _) (hnodT.product hnodF)]
      intro k
      rw [List.mem_dedup]
      cases k with
      | mk t f =>
        constructor
        · intro hk
          rcases hsub (t, f) hk with ⟨ht, hf⟩
          exact List.mem_product.mpr ⟨ht, hf⟩
        · intro hk
          obtain ⟨ht, hf⟩ := List.mem_product.mp hk
          exact hcover t ht f hf
    have hsorted := List.sorted_mergeSort pairLe_trans pairLe_total
      ((r.map (fun a => a.key)).dedup)
    rw [hrun]
    simp only [bdhShape]
    rw [if_neg h1]
    exact ⟨_, rfl, hperm, hsorted⟩

/-- C3 witness: two tickers, one field, delivered in reversed order within
one RESPONSE event; the single-level columns still come back in caller
ticker order. -/
theorem bdh_column_order_witness :
    (∃ r, collectEvs (bdhExtract ["f"])
      ([] ++ [⟨EvType.RESPONSE, [⟨false, "t2", [[0, 8]]⟩, ⟨false, "t1", [[0, 7]]⟩]⟩]) = .ok r) ∧
    (["t1", "t2"] : List String).Nodup ∧
    (∀ t ∈ (["t1", "t2"] : List String), ∀ f ∈ (["f"] : List String),
      (t, f) ∈ (bdhRecsOf ["f"]
        ([] ++ [⟨EvType.RESPONSE, [⟨false, "t2", [[0, 8]]⟩, ⟨false, "t1", [[0, 7]]⟩]⟩])).map
        (fun a => a.key)) ∧
    ∃ t1 : Table Int String Int,
      bdhRun ["t1", "t2"] ["f"]
          ([] ++ [⟨EvType.RESPONSE, [⟨false, "t2", [[0, 8]]⟩, ⟨false, "t1", [[0, 7]]⟩]⟩]) =
        some (.ok (BdhResult.single t1)) ∧
      t1.cols = ["t1", "t2"] :=
  ⟨⟨_, rfl⟩, by decide, by decide,
    (bdh_column_order ["t1", "t2"] ["f"] []
      ⟨EvType.RESPONSE, [⟨false, "t2", [[0, 8]]⟩, ⟨false, "t1", [[0, 7]]⟩]⟩
      (by decide) ⟨_, rfl⟩ rfl (by decide) (by decide) (by decide) (by decide)).1 rfl⟩
